import Mathlib

/-!
Shallow embedding of the toml-diff reference implementation
(src/lib.rs and src/display.rs) and proofs about its behavior.

Modelling conventions:
* `toml::Value` becomes the inductive `TomlValue`.  A `Table` is an
  association list of (key, value) entries; the backing map in the source
  (a sorted `BTreeMap`) keeps its entries in canonical sorted order, so
  structural list equality of well-formed (sorted, duplicate-free) tables
  coincides with map equality.  Float payloads are modelled opaquely by
  their bit pattern; no theorem below depends on float semantics.
* Rust `String` comparison (`a_key < b_key`) is byte-lexicographic; for
  UTF-8 data that is exactly scalar-value-lexicographic order, modelled by
  `strLt` below over `String.data`.
* The `diff` work loop is modelled as a fuel-indexed step machine.  The
  Rust loop has no fuel, so "result is `stuck` for every fuel amount"
  models divergence of the source loop, and `Halt.panicked msg` models a
  `panic!` / `todo!` aborting the call.  The machine result carries the
  `changes` vector as it stood when the machine halted, so theorems can
  talk about the records the traversal had emitted up to that point
  (a Rust panic would discard that vector; the halt flag records that).
* The `Display` renderer (src/display.rs, duplicated in src/lib.rs) is
  modelled with the external value-serialization collaborator
  (`toml::to_string`) abstracted as a `ser` function parameter that may
  fail, mirroring spec section 6.  The unchecked `.unwrap()` on its result
  and the `todo!()` in the `Changed` arm are modelled as `panicked`
  outcomes, distinct from successful output.
-/

/-- Model of `toml::Value` (the Value Tree collaborator of the spec). -/
inductive TomlValue where
  | string (s : String)
  | integer (n : Int)
  | float (bits : Nat)
  | boolean (b : Bool)
  | datetime (d : String)
  | array (elems : List TomlValue)
  | table (entries : List (String × TomlValue))

/-- Model of `std::mem::discriminant` on `toml::Value`: the variant tag. -/
def TomlValue.discr : TomlValue → Nat
  | .string _ => 0
  | .integer _ => 1
  | .float _ => 2
  | .boolean _ => 3
  | .datetime _ => 4
  | .array _ => 5
  | .table _ => 6

/-- Model of `Value::is_array`. -/
def TomlValue.isArray : TomlValue → Bool
  | .array _ => true
  | _ => false

/-- Model of `Value::is_table`. -/
def TomlValue.isTable : TomlValue → Bool
  | .table _ => true
  | _ => false

mutual

/-- Model of the derived structural `PartialEq` on `toml::Value`
(`a_elem == b_elem`, `a_val == b_val` in src/lib.rs). -/
def TomlValue.beq : TomlValue → TomlValue → Bool
  | .string a, .string b => a == b
  | .integer a, .integer b => a == b
  | .float a, .float b => a == b
  | .boolean a, .boolean b => a == b
  | .datetime a, .datetime b => a == b
  | .array a, .array b => beqElems a b
  | .table a, .table b => beqEntries a b
  | _, _ => false

/-- Element-wise equality of array payloads. -/
def beqElems : List TomlValue → List TomlValue → Bool
  | [], [] => true
  | x :: xs, y :: ys => x.beq y && beqElems xs ys
  | _, _ => false

/-- Entry-wise equality of table payloads. -/
def beqEntries : List (String × TomlValue) → List (String × TomlValue) → Bool
  | [], [] => true
  | (k1, v1) :: xs, (k2, v2) :: ys => k1 == k2 && v1.beq v2 && beqEntries xs ys
  | _, _ => false

end

/-- Lexicographic comparison of character lists by Unicode scalar value;
for UTF-8 encoded strings this equals the byte-lexicographic `Ord` that
Rust uses on `String` keys. -/
def strLtAux : List Char → List Char → Bool
  | _, [] => false
  | [], _ :: _ => true
  | a :: as, b :: bs =>
    if a < b then true
    else if b < a then false
    else strLtAux as bs

/-- Model of `a_key < b_key` on Rust strings. -/
def strLt (a b : String) : Bool := strLtAux a.data b.data

/-- Propositional form of the key order, used in ordering statements. -/
def KeyLt (a b : String) : Prop := strLt a b = true

instance (a b : String) : Decidable (KeyLt a b) := by
  unfold KeyLt; infer_instance

/-- Model of `enum TomlChange` from src/lib.rs lines 11-16.  The key of
`added` and `deleted` is a mandatory `String` (a `Cow<str>` in the
source, not an `Option`), while `changed` carries an optional key. -/
inductive TomlChange where
  | same
  | added (key : String) (val : TomlValue)
  | deleted (key : String) (val : TomlValue)
  | changed (key : Option String) (valA valB : TomlValue)

/-- Insertion step of a stable sort by key (models one placement decision
of `Vec::sort_by_key`, which is stable). -/
def insertByKey (e : String × TomlValue) :
    List (String × TomlValue) → List (String × TomlValue)
  | [] => [e]
  | x :: xs => if strLt x.1 e.1 then x :: insertByKey e xs else e :: x :: xs

/-- Model of `a_elems.sort_by_key(|e| e.0)` (src/lib.rs lines 108-109):
a stable sort of the collected table entries by key. -/
def sortByKey : List (String × TomlValue) → List (String × TomlValue)
  | [] => []
  | x :: xs => insertByKey x (sortByKey xs)

/-- Result of running the table merge-walk loop (src/lib.rs lines
113-153) on a given amount of fuel.  `stuck = true` means the fuel ran
out with the loop still running: the source loop, which has no fuel,
diverges exactly when this holds for every fuel amount.  `changes` holds
the records pushed onto the shared `changes` vector, in push order, and
`pushes` the pairs pushed onto the work stack, in push order. -/
structure WalkRes where
  stuck : Bool
  changes : List TomlChange
  pushes : List (TomlValue × TomlValue)

/-- Model of the merge-walk loop over the two sorted entry sequences
(src/lib.rs lines 113-153).  Each loop iteration costs one unit of fuel.
Note that only the two key-mismatch arms call `.next()` on an iterator;
all equal-key arms `continue` (or fall through) without advancing either
peekable iterator, which the theorems below exploit. -/
def mergeWalk (fuel : Nat) (as bs : List (String × TomlValue)) : WalkRes :=
  match as, bs with
  | [], _ => ⟨false, [], []⟩
  | _ :: _, [] => ⟨false, [], []⟩
  | (ak, av) :: as1, (bk, bv) :: bs1 =>
    match fuel with
    | 0 => ⟨true, [], []⟩
    | fuel + 1 =>
    if strLt ak bk then
      -- lines 118-122: key missing from `b`, emit Added, advance `a`
      let r := mergeWalk fuel as1 ((bk, bv) :: bs1)
      ⟨r.stuck, .added ak av :: r.changes, r.pushes⟩
    else if strLt bk ak then
      -- lines 123-127: key missing from `a`, emit Deleted, advance `b`
      let r := mergeWalk fuel ((ak, av) :: as1) bs1
      ⟨r.stuck, .deleted bk bv :: r.changes, r.pushes⟩
    else if av.beq bv then
      -- lines 130-133: equal values, `continue` without advancing
      mergeWalk fuel ((ak, av) :: as1) ((bk, bv) :: bs1)
    else if av.discr != bv.discr then
      -- lines 135-142: discriminant mismatch, emit Changed, no advance
      let r := mergeWalk fuel ((ak, av) :: as1) ((bk, bv) :: bs1)
      ⟨r.stuck, .changed (some ak) av bv :: r.changes, r.pushes⟩
    else if av.isTable || av.isArray then
      -- lines 144-145: push the pair onto the work stack, no advance
      let r := mergeWalk fuel ((ak, av) :: as1) ((bk, bv) :: bs1)
      ⟨r.stuck, r.changes, (av, bv) :: r.pushes⟩
    else
      -- lines 146-151: same-kind scalars, emit Changed, no advance
      let r := mergeWalk fuel ((ak, av) :: as1) ((bk, bv) :: bs1)
      ⟨r.stuck, .changed (some ak) av bv :: r.changes, r.pushes⟩

/-- Model of the positional zip over two array payloads (src/lib.rs lines
85-100): returns the changes pushed and the pairs pushed onto the stack,
each in push order. -/
def arrayZip : List TomlValue → List TomlValue →
    List TomlChange × List (TomlValue × TomlValue)
  | a :: as1, b :: bs1 =>
    let r := arrayZip as1 bs1
    if a.beq b then r
    else if a.discr != b.discr then (.changed none a b :: r.1, r.2)
    else if a.isTable || a.isArray then (r.1, (a, b) :: r.2)
    else (.changed none a b :: r.1, r.2)
  | _, _ => ([], [])

/-- How a run of the diff machine ended. -/
inductive Halt where
  | ok
  | panicked (msg : String)
  | stuck
  deriving DecidableEq

/-- Machine result: how the run halted, together with the contents of the
`changes` vector at that moment. -/
structure DiffOut where
  halt : Halt
  changes : List TomlChange

/-- Model of the outer work-stack loop of `TomlDiff::diff` (src/lib.rs
lines 73-155).  Popping a pair costs one unit of fuel, and the merge-walk
inside the table branch spends the remaining fuel.  Both the array branch
(line 101) and the table branch (line 154) end in an unconditional
`todo!`, so no loop iteration ever completes normally: the loop body
either aborts with a panic or runs out of fuel inside the merge-walk. -/
def runStack (fuel : Nat) (stack : List (TomlValue × TomlValue))
    (cs : List TomlChange) : DiffOut :=
  match stack with
  | [] => ⟨.ok, cs⟩
  | (a, b) :: _ =>
    match fuel with
    | 0 => ⟨.stuck, cs⟩
    | fuel + 1 =>
    if a.isArray then
      match a, b with
      | .array av, .array bv =>
        -- lines 85-100 then the unconditional `todo!` at line 101
        let z := arrayZip av bv
        ⟨.panicked "Process the leftovers if the arrays have different lengths",
          cs ++ z.1⟩
      | _, _ =>
        -- line 77: `b.as_array().unwrap()` on a non-array
        ⟨.panicked "called Option::unwrap on a None value", cs⟩
    else
      match a, b with
      | .table am, .table bm =>
        -- lines 104-111: collect and sort both entry lists, then run the
        -- merge-walk; whether it exits or exhausts its fuel, the
        -- unconditional `todo!` at line 154 means this stack iteration
        -- never completes, so the outer loop never runs a second time.
        let r := mergeWalk fuel (sortByKey am) (sortByKey bm)
        if r.stuck then ⟨.stuck, cs ++ r.changes⟩
        else ⟨.panicked "Handle left-over key-value pairs", cs ++ r.changes⟩
      | _, _ =>
        -- line 104: `a.as_table().unwrap()` on a non-table
        ⟨.panicked "called Option::unwrap on a None value", cs⟩

/-- Model of `TomlDiff::diff(a, b)` (src/lib.rs lines 66-157).  Per the
doc comment on the source function, `a` is the "new" document and `b`
the "old" one.  A non-table root panics at line 69 before any traversal
happens. -/
def diff (fuel : Nat) (a b : TomlValue) : DiffOut :=
  match a, b with
  | .table _, .table _ => runStack fuel [(a, b)] []
  | _, _ => ⟨.panicked "Expected a table at the top level", []⟩

/-- Outcome of the `Display` rendering of a change list (src/display.rs,
duplicated in src/lib.rs lines 18-33): either the full text, or a panic
reaching the caller.  Writing into the in-memory formatter itself never
fails, so the source never produces an `fmt::Error` of its own; its only
failure mode is panicking. -/
inductive RenderOut where
  | ok (text : String)
  | panicked (msg : String)

mutual

/-- Model of `format_change` (src/display.rs lines 25-47): renders one
value with a one-character line marker.  The external serialization
collaborator `toml::to_string` is abstracted as `ser`; the source calls
`.unwrap()` on its result, so a failing serialization is a panic,
modelled by `none`. -/
def format_change (ser : TomlValue → Option String) (px : Char) (key : String) :
    TomlValue → Option String
  | .string s => some (px.toString ++ " " ++ key ++ " = \"" ++ s ++ "\"\n")
  | .table t =>
    match format_entries ser px t with
    | some body => some (px.toString ++ " [" ++ key ++ "]\n" ++ body)
    | none => none
  | v =>
    match ser v with
    | some s => some (px.toString ++ " " ++ key ++ " = " ++ s ++ "\n")
    | none => none

/-- Renders every entry of a table value in sequence with the same
marker, as the `for (key, val) in table` loop of `format_change` does. -/
def format_entries (ser : TomlValue → Option String) (px : Char) :
    List (String × TomlValue) → Option String
  | [] => some ""
  | (k, v) :: rest =>
    match format_change ser px k v, format_entries ser px rest with
    | some s1, some s2 => some (s1 ++ s2)
    | _, _ => none

end

/-- Model of `impl Display for TomlDiff` (src/display.rs lines 8-23):
walks the change list in order.  `Same` emits nothing, `Added` renders
with marker `+`, `Deleted` with marker `-`, and the `Changed` arm is the
source literal `todo!()`, which panics with "not yet implemented" as soon
as a `Changed` record is reached. -/
def renderChanges (ser : TomlValue → Option String) : List TomlChange → RenderOut
  | [] => .ok ""
  | .same :: rest => renderChanges ser rest
  | .added k v :: rest =>
    match format_change ser '+' k v with
    | none => .panicked "called Option::unwrap on a None value"
    | some s =>
      match renderChanges ser rest with
      | .ok t => .ok (s ++ t)
      | out => out
  | .deleted k v :: rest =>
    match format_change ser '-' k v with
    | none => .panicked "called Option::unwrap on a None value"
    | some s =>
      match renderChanges ser rest with
      | .ok t => .ok (s ++ t)
      | out => out
  | .changed _ _ _ :: _ => .panicked "not yet implemented"

/-- Keys of Added and Deleted records, in emission order. -/
def adKeys : List TomlChange → List String
  | [] => []
  | .added k _ :: rest => k :: adKeys rest
  | .deleted k _ :: rest => k :: adKeys rest
  | _ :: rest => adKeys rest

/-- Where a change record emitted by the table merge-walk draws its data
from: `added` carries an entry of the first (new) sequence, `deleted` an
entry of the second (old) sequence, and `changed` carries a present key
together with the value of the new document first and the value of the
old document second.  `same` is never emitted at all. -/
def OriginOk (as bs : List (String × TomlValue)) : TomlChange → Prop
  | .same => False
  | .added k v => (k, v) ∈ as
  | .deleted k v => (k, v) ∈ bs
  | .changed ko x y => ∃ k, ko = some k ∧ (k, x) ∈ as ∧ (k, y) ∈ bs

/-- Entry order used by the sortedness arguments: the key of the later
entry is not below the key of the earlier one. -/
def EntryLe (p q : String × TomlValue) : Prop := strLt q.1 p.1 = false

/-!
Order facts about the key comparison.
-/

lemma strLtAux_irrefl : ∀ as, strLtAux as as = false := by
  intro as
  induction as with
  | nil => rfl
  | cons a as ih => simp [strLtAux, lt_irrefl, ih]

lemma strLt_irrefl (a : String) : strLt a a = false := strLtAux_irrefl a.data

lemma strLtAux_trans : ∀ as bs cs, strLtAux as bs = true → strLtAux bs cs = true →
    strLtAux as cs = true := by
  intro as
  induction as with
  | nil =>
    intro bs cs h1 h2
    cases bs with
    | nil => simp [strLtAux] at h1
    | cons b bs =>
      cases cs with
      | nil => simp [strLtAux] at h2
      | cons c cs => simp [strLtAux]
  | cons a as ih =>
    intro bs cs h1 h2
    cases bs with
    | nil => simp [strLtAux] at h1
    | cons b bs =>
      cases cs with
      | nil => simp [strLtAux] at h2
      | cons c cs =>
        simp only [strLtAux] at h1 h2 ⊢
        by_cases hab : a < b
        · by_cases hbc : b < c
          · simp [lt_trans hab hbc]
          · by_cases hcb : c < b
            · simp [hbc, hcb] at h2
            · have hbc2 : b = c := le_antisymm (le_of_not_lt hcb) (le_of_not_lt hbc)
              subst hbc2
              simp [hab]
        · by_cases hba : b < a
          · simp [hab, hba] at h1
          · have hab2 : a = b := le_antisymm (le_of_not_lt hba) (le_of_not_lt hab)
            subst hab2
            simp [lt_irrefl] at h1
            by_cases hac : a < c
            · simp [hac]
            · by_cases hca : c < a
              · simp [hac, hca] at h2
              · simp only [hac, hca, if_false] at h2 ⊢
                exact ih bs cs h1 h2

lemma strLt_trans {a b c : String} (h1 : strLt a b = true) (h2 : strLt b c = true) :
    strLt a c = true := strLtAux_trans _ _ _ h1 h2

lemma strLtAux_conn : ∀ as bs, strLtAux as bs = false → strLtAux bs as = false → as = bs := by
  intro as
  induction as with
  | nil =>
    intro bs h1 h2
    cases bs with
    | nil => rfl
    | cons b bs => simp [strLtAux] at h1
  | cons a as ih =>
    intro bs h1 h2
    cases bs with
    | nil => simp [strLtAux] at h2
    | cons b bs =>
      simp only [strLtAux] at h1 h2
      by_cases hab : a < b
      · simp [hab] at h1
      · by_cases hba : b < a
        · simp [hab, hba] at h2
        · have hab2 : a = b := le_antisymm (le_of_not_lt hba) (le_of_not_lt hab)
          subst hab2
          simp only [lt_irrefl, if_false] at h1 h2
          rw [ih bs h1 h2]

lemma strLt_conn {a b : String} (h1 : strLt a b = false) (h2 : strLt b a = false) :
    a = b := by
  have h := strLtAux_conn a.data b.data h1 h2
  cases a; cases b; simp_all

lemma strLt_asymm {a b : String} (h : strLt a b = true) : strLt b a = false := by
  cases hb : strLt b a
  · rfl
  · have h2 := strLt_trans h hb
    rw [strLt_irrefl] at h2
    exact h2.symm

lemma strLt_false_trans {a b c : String} (h1 : strLt b a = false)
    (h2 : strLt c b = false) : strLt c a = false := by
  cases hca : strLt c a
  · rfl
  · cases hbc : strLt b c
    · have hb : b = c := strLt_conn hbc h2
      subst hb
      rw [h1] at hca
      exact hca.symm
    · have h3 := strLt_trans hbc hca
      rw [h1] at h3
      exact h3.symm

/-!
Sortedness and permutation facts about the key sort.
-/

lemma mem_insertByKey {e x : String × TomlValue} :
    ∀ l, x ∈ insertByKey e l ↔ x = e ∨ x ∈ l := by
  intro l
  induction l with
  | nil => simp [insertByKey]
  | cons y ys ih =>
    simp only [insertByKey]
    cases hc : strLt y.1 e.1
    · simp [hc, List.mem_cons, ih]
      try tauto
    · simp [hc, List.mem_cons, ih]
      try tauto

lemma insertByKey_perm (e : String × TomlValue) (l : List (String × TomlValue)) :
    List.Perm (insertByKey e l) (e :: l) := by
  induction l with
  | nil => exact List.Perm.refl _
  | cons x xs ih =>
    simp only [insertByKey]
    cases hc : strLt x.1 e.1
    · exact List.Perm.refl _
    · exact (ih.cons x).trans (List.Perm.swap e x xs)

lemma sortByKey_perm (l : List (String × TomlValue)) :
    List.Perm (sortByKey l) l := by
  induction l with
  | nil => exact List.Perm.refl _
  | cons x xs ih => exact (insertByKey_perm x (sortByKey xs)).trans (ih.cons x)

lemma insertByKey_sorted {e : String × TomlValue} {l : List (String × TomlValue)}
    (h : l.Pairwise EntryLe) : (insertByKey e l).Pairwise EntryLe := by
  induction l with
  | nil => simp [insertByKey]
  | cons x xs ih =>
    rcases List.pairwise_cons.mp h with ⟨hx, hxs⟩
    simp only [insertByKey]
    cases hc : strLt x.1 e.1
    · refine List.pairwise_cons.mpr ⟨?_, h⟩
      intro y hy
      rcases List.mem_cons.mp hy with rfl | hyl
      · exact hc
      · exact strLt_false_trans hc (hx y hyl)
    · refine List.pairwise_cons.mpr ⟨?_, ih hxs⟩
      intro y hy
      rcases (mem_insertByKey xs).mp hy with rfl | hyl
      · exact strLt_asymm hc
      · exact hx y hyl

lemma sortByKey_sorted (l : List (String × TomlValue)) :
    (sortByKey l).Pairwise EntryLe := by
  induction l with
  | nil => simp [sortByKey]
  | cons x xs ih => exact insertByKey_sorted ih

lemma sortByKey_keys_lt {l : List (String × TomlValue)}
    (h : (l.map Prod.fst).Nodup) :
    ((sortByKey l).map Prod.fst).Pairwise KeyLt := by
  have hperm := sortByKey_perm l
  have hnd : ((sortByKey l).map Prod.fst).Nodup :=
    ((hperm.map Prod.fst).nodup_iff).mpr h
  have hle : ((sortByKey l).map Prod.fst).Pairwise (fun a b => strLt b a = false) := by
    rw [List.pairwise_map]
    exact sortByKey_sorted l
  have hcomb := hle.and hnd
  refine hcomb.imp ?_
  intro a b hab
  rcases hab with ⟨h1, h2⟩
  cases hab2 : strLt a b
  · exact absurd (strLt_conn hab2 h1) h2
  · exact hab2

/-!
Provenance of merge-walk emissions.
-/

lemma OriginOk_mono {as2 bs2 as bs : List (String × TomlValue)} {c : TomlChange}
    (hsub1 : ∀ x, x ∈ as → x ∈ as2) (hsub2 : ∀ x, x ∈ bs → x ∈ bs2)
    (h : OriginOk as bs c) : OriginOk as2 bs2 c := by
  cases c with
  | same => simp only [OriginOk] at h
  | added k v =>
    simp only [OriginOk] at h ⊢
    exact hsub1 _ h
  | deleted k v =>
    simp only [OriginOk] at h ⊢
    exact hsub2 _ h
  | changed ko x y =>
    simp only [OriginOk] at h ⊢
    rcases h with ⟨k, hk, ha, hb⟩
    exact ⟨k, hk, hsub1 _ ha, hsub2 _ hb⟩

lemma mergeWalk_origin : ∀ fuel as bs c, c ∈ (mergeWalk fuel as bs).changes →
    OriginOk as bs c := by
  intro fuel
  induction fuel with
  | zero =>
    intro as bs c hc
    rcases as with _ | ⟨⟨ak, av⟩, as1⟩
    · simp [mergeWalk] at hc
    rcases bs with _ | ⟨⟨bk, bv⟩, bs1⟩
    · simp [mergeWalk] at hc
    · simp [mergeWalk] at hc
  | succ fuel ih =>
    intro as bs c hc
    rcases as with _ | ⟨⟨ak, av⟩, as1⟩
    · simp [mergeWalk] at hc
    rcases bs with _ | ⟨⟨bk, bv⟩, bs1⟩
    · simp [mergeWalk] at hc
    simp only [mergeWalk] at hc
    cases h1 : strLt ak bk with
    | true =>
      simp only [h1, if_true] at hc
      rcases List.mem_cons.mp hc with rfl | hc2
      · simp only [OriginOk]
        exact List.mem_cons_self _ _
      · exact OriginOk_mono (fun x hx => List.mem_cons_of_mem _ hx) (fun x hx => hx)
          (ih as1 ((bk, bv) :: bs1) c hc2)
    | false =>
      cases h2 : strLt bk ak with
      | true =>
        simp only [h1, h2, Bool.false_eq_true, if_false, if_true] at hc
        rcases List.mem_cons.mp hc with rfl | hc2
        · simp only [OriginOk]
          exact List.mem_cons_self _ _
        · exact OriginOk_mono (fun x hx => hx) (fun x hx => List.mem_cons_of_mem _ hx)
            (ih ((ak, av) :: as1) bs1 c hc2)
      | false =>
        have hk : ak = bk := strLt_conn h1 h2
        subst hk
        by_cases h3 : TomlValue.beq av bv = true
        · simp only [h1, h3, Bool.false_eq_true, if_false, if_true] at hc
          exact ih _ _ _ hc
        · by_cases h4 : (av.discr != bv.discr) = true
          · simp only [h1, h3, h4, Bool.false_eq_true, if_false, if_true] at hc
            rcases List.mem_cons.mp hc with rfl | hc2
            · simp only [OriginOk]
              exact ⟨ak, rfl, List.mem_cons_self _ _, List.mem_cons_self _ _⟩
            · exact ih _ _ _ hc2
          · by_cases h5 : (av.isTable || av.isArray) = true
            · simp only [h1, h3, h4, h5, Bool.false_eq_true, if_false, if_true] at hc
              exact ih _ _ _ hc
            · simp only [h1, h3, h4, h5, Bool.false_eq_true, if_false, if_true] at hc
              rcases List.mem_cons.mp hc with rfl | hc2
              · simp only [OriginOk]
                exact ⟨ak, rfl, List.mem_cons_self _ _, List.mem_cons_self _ _⟩
              · exact ih _ _ _ hc2

/-!
Ordering of merge-walk emissions, and reduction laws for the machine.
-/

lemma mergeWalk_adKeys : ∀ fuel as bs,
    (as.map Prod.fst).Pairwise KeyLt → (bs.map Prod.fst).Pairwise KeyLt →
    (∀ k ∈ adKeys (mergeWalk fuel as bs).changes,
      k ∈ as.map Prod.fst ∨ k ∈ bs.map Prod.fst) ∧
    (adKeys (mergeWalk fuel as bs).changes).Pairwise KeyLt := by
  intro fuel
  induction fuel with
  | zero =>
    intro as bs ha hb
    rcases as with _ | ⟨⟨ak, av⟩, as1⟩
    · simp [mergeWalk, adKeys]
    rcases bs with _ | ⟨⟨bk, bv⟩, bs1⟩
    · simp [mergeWalk, adKeys]
    · simp [mergeWalk, adKeys]
  | succ fuel ih =>
    intro as bs ha hb
    rcases as with _ | ⟨⟨ak, av⟩, as1⟩
    · simp [mergeWalk, adKeys]
    rcases bs with _ | ⟨⟨bk, bv⟩, bs1⟩
    · simp [mergeWalk, adKeys]
    simp only [List.map_cons] at ha hb
    rcases List.pairwise_cons.mp ha with ⟨hak, ha1⟩
    rcases List.pairwise_cons.mp hb with ⟨hbk, hb1⟩
    simp only [mergeWalk]
    cases h1 : strLt ak bk with
    | true =>
      simp only [h1, if_true, adKeys]
      have hme : (List.map Prod.fst ((bk, bv) :: bs1)).Pairwise KeyLt := by
        simp only [List.map_cons]
        exact List.pairwise_cons.mpr ⟨hbk, hb1⟩
      rcases ih as1 ((bk, bv) :: bs1) ha1 hme with ⟨ihmem, ihpw⟩
      constructor
      · intro k hk
        rcases List.mem_cons.mp hk with rfl | hk2
        · exact Or.inl (List.mem_cons_self _ _)
        · rcases ihmem k hk2 with hin | hin
          · exact Or.inl (List.mem_cons_of_mem _ hin)
          · exact Or.inr hin
      · refine List.pairwise_cons.mpr ⟨?_, ihpw⟩
        intro k hk
        rcases ihmem k hk with hin | hin
        · exact hak k hin
        · simp only [List.map_cons] at hin
          rcases List.mem_cons.mp hin with rfl | hin2
          · exact h1
          · exact strLt_trans h1 (hbk k hin2)
    | false =>
      cases h2 : strLt bk ak with
      | true =>
        simp only [h1, h2, Bool.false_eq_true, if_false, if_true, adKeys]
        have hme : (List.map Prod.fst ((ak, av) :: as1)).Pairwise KeyLt := by
          simp only [List.map_cons]
          exact List.pairwise_cons.mpr ⟨hak, ha1⟩
        rcases ih ((ak, av) :: as1) bs1 hme hb1 with ⟨ihmem, ihpw⟩
        constructor
        · intro k hk
          rcases List.mem_cons.mp hk with rfl | hk2
          · exact Or.inr (List.mem_cons_self _ _)
          · rcases ihmem k hk2 with hin | hin
            · exact Or.inl hin
            · exact Or.inr (List.mem_cons_of_mem _ hin)
        · refine List.pairwise_cons.mpr ⟨?_, ihpw⟩
          intro k hk
          rcases ihmem k hk with hin | hin
          · simp only [List.map_cons] at hin
            rcases List.mem_cons.mp hin with rfl | hin2
            · exact h2
            · exact strLt_trans h2 (hak k hin2)
          · exact hbk k hin
      | false =>
        have hps : (List.map Prod.fst ((ak, av) :: as1)).Pairwise KeyLt := by
          simp only [List.map_cons]
          exact List.pairwise_cons.mpr ⟨hak, ha1⟩
        have hqs : (List.map Prod.fst ((bk, bv) :: bs1)).Pairwise KeyLt := by
          simp only [List.map_cons]
          exact List.pairwise_cons.mpr ⟨hbk, hb1⟩
        by_cases h3 : TomlValue.beq av bv = true
        · simp only [h1, h3, Bool.false_eq_true, if_false, if_true]
          exact ih _ _ hps hqs
        · by_cases h4 : (av.discr != bv.discr) = true
          · simp only [h1, h3, h4, Bool.false_eq_true, if_false, if_true, adKeys]
            exact ih _ _ hps hqs
          · by_cases h5 : (av.isTable || av.isArray) = true
            · simp only [h1, h3, h4, h5, Bool.false_eq_true, if_false, if_true]
              exact ih _ _ hps hqs
            · simp only [h1, h3, h4, h5, Bool.false_eq_true, if_false, if_true, adKeys]
              exact ih _ _ hps hqs

lemma diff_zero (ta tb : List (String × TomlValue)) :
    diff 0 (.table ta) (.table tb) = ⟨.stuck, []⟩ := rfl

lemma diff_succ (fuel : Nat) (ta tb : List (String × TomlValue)) :
    diff (fuel + 1) (.table ta) (.table tb)
      = ⟨if (mergeWalk fuel (sortByKey ta) (sortByKey tb)).stuck then .stuck
          else .panicked "Handle left-over key-value pairs",
          (mergeWalk fuel (sortByKey ta) (sortByKey tb)).changes⟩ := by
  simp only [diff, runStack, TomlValue.isArray, Bool.false_eq_true, if_false]
  split <;> simp_all

/-!
Claim theorems.
-/

lemma mergeWalk_same_entry_stuck : ∀ fuel,
    mergeWalk fuel [("a", TomlValue.integer 1)] [("a", TomlValue.integer 1)]
      = ⟨true, [], []⟩ := by
  intro fuel
  induction fuel with
  | zero => rfl
  | succ fuel ih =>
    have h1 : strLt "a" "a" = false := by decide
    have h2 : TomlValue.beq (.integer 1) (.integer 1) = true := rfl
    simp only [mergeWalk, h1, Bool.false_eq_true, if_false, h2, if_true]
    simpa [mergeWalk] using ih

/-- C1: the spec claims the diff operation terminates for every pair of
well-formed top-level tables.  The code does not: on two identical
single-entry tables the merge-walk hits the equal-keys arm, which never
advances either iterator, so the loop repeats the same comparison
forever.  In the fuel model, the run is still going for every fuel
amount. -/
theorem c1_diff_loops_forever_on_shared_key : ∀ fuel,
    (diff fuel (.table [("a", TomlValue.integer 1)])
      (.table [("a", TomlValue.integer 1)])).halt = Halt.stuck := by
  intro fuel
  cases fuel with
  | zero => rfl
  | succ fuel =>
    rw [diff_succ]
    simp [sortByKey, insertByKey, mergeWalk_same_entry_stuck fuel]

theorem c1_witness :
    (diff 11 (.table [("a", TomlValue.integer 1)])
      (.table [("a", TomlValue.integer 1)])).halt = Halt.stuck :=
  c1_diff_loops_forever_on_shared_key 11

/-- C2: the spec claims diff(x, x) yields a change set of only Same
entries (or none) rendering to the empty string.  The code instead never
returns: for the empty table the merge-walk exits at once and the
unconditional todo panic at line 154 aborts the call with no change set
at all (and for nonempty tables the loop diverges, see C1). -/
theorem c2_diff_self_empty_table_panics : ∀ fuel,
    diff (fuel + 1) (.table []) (.table [])
      = ⟨.panicked "Handle left-over key-value pairs", []⟩ := by
  intro fuel
  rw [diff_succ]
  simp [sortByKey, mergeWalk]

theorem c2_witness :
    diff 4 (.table []) (.table [])
      = ⟨.panicked "Handle left-over key-value pairs", []⟩ :=
  c2_diff_self_empty_table_panics 3

/-- C3: the spec claims that on matching keys with equal values the walk
emits Same and advances both pointers.  The code does neither: with the
single equal entry ("a", 1) on both sides the walk emits nothing
(changes stays empty, no Same record exists), never exits (stuck for
every fuel), and pushes nothing. -/
theorem c3_equal_entry_no_same_no_advance : ∀ fuel,
    mergeWalk fuel [("a", TomlValue.integer 1)] [("a", TomlValue.integer 1)]
      = ⟨true, [], []⟩ :=
  fun fuel => mergeWalk_same_entry_stuck fuel

theorem c3_witness :
    mergeWalk 23 [("a", TomlValue.integer 1)] [("a", TomlValue.integer 1)]
      = ⟨true, [], []⟩ :=
  c3_equal_entry_no_same_no_advance 23

/-- C4: the spec claims leftover table entries and leftover array
elements are emitted as Added or Deleted.  The code instead reaches an
unconditional todo panic in both positions: a table diff whose new side
has a leftover entry panics without emitting it, and an array comparison
panics right after the zipped part regardless of the leftovers. -/
theorem c4_leftovers_panic_not_emitted :
    (∀ fuel, diff (fuel + 1) (.table [("a", TomlValue.integer 1)]) (.table [])
      = ⟨.panicked "Handle left-over key-value pairs", []⟩) ∧
    (∀ fuel, runStack (fuel + 1)
        [(.array [TomlValue.integer 1, TomlValue.integer 2],
          .array [TomlValue.integer 1])] []
      = ⟨.panicked "Process the leftovers if the arrays have different lengths",
          []⟩) := by
  constructor
  · intro fuel
    rw [diff_succ]
    simp [sortByKey, insertByKey, mergeWalk]
  · intro fuel
    rfl

theorem c4_witness :
    diff 6 (.table [("a", TomlValue.integer 1)]) (.table [])
      = ⟨.panicked "Handle left-over key-value pairs", []⟩ :=
  c4_leftovers_panic_not_emitted.1 5

/-- C5: the spec claims a Changed entry renders as a minus-marked line
for the old value followed by a plus-marked line for the new value.  The
code has the literal todo stub in the Changed arm, so rendering any
change set containing a Changed record panics with "not yet implemented"
instead, no matter how the serialization collaborator behaves. -/
theorem c5_changed_rendering_is_todo_panic :
    ∀ ser : TomlValue → Option String,
      renderChanges ser [.changed (some "a") (TomlValue.integer 1) (TomlValue.integer 2)]
        = .panicked "not yet implemented" :=
  fun _ => rfl

theorem c5_witness :
    renderChanges (fun _ => some "0")
        [.changed (some "a") (TomlValue.integer 1) (TomlValue.integer 2)]
      = .panicked "not yet implemented" :=
  c5_changed_rendering_is_todo_panic (fun _ => some "0")

/-- C6: the spec demands that a failing leaf serialization surface as a
renderer error.  The code instead unwraps the collaborator result, so a
failing serialization panics out of the Display call; the renderer never
produces an error value of its own. -/
theorem c6_serialization_failure_panics :
    ∀ (ser : TomlValue → Option String) (k : String) (n : Int),
      ser (.integer n) = none →
      renderChanges ser [.added k (TomlValue.integer n)]
        = .panicked "called Option::unwrap on a None value" := by
  intro ser k n h
  simp [renderChanges, format_change, h]

theorem c6_witness :
    ((fun _ => none : TomlValue → Option String) (TomlValue.integer 0) = none) ∧
    renderChanges (fun _ => none) [.added "k" (TomlValue.integer 0)]
      = .panicked "called Option::unwrap on a None value" :=
  ⟨rfl, c6_serialization_failure_panics (fun _ => none) "k" 0 rfl⟩

/-- C7: the spec claims a non-table root fails immediately with no
partial change set, and that for table roots no other failure condition
exists.  The first half matches the code (the guard panics before any
traversal, with an empty change vector); the second half does not: two
disjoint single-entry tables drive the merge-walk to completion and then
hit the unconditional todo panic, a failure on table inputs. -/
theorem c7_top_level_guard_and_todo_failure :
    (∀ fuel, diff fuel (.integer 0) (.table [])
      = ⟨.panicked "Expected a table at the top level", []⟩) ∧
    (∀ fuel, diff (fuel + 2) (.table [("a", TomlValue.integer 1)])
        (.table [("b", TomlValue.integer 2)])
      = ⟨.panicked "Handle left-over key-value pairs",
          [.added "a" (TomlValue.integer 1)]⟩) := by
  constructor
  · intro fuel
    rfl
  · intro fuel
    have h1 : strLt "a" "b" = true := by decide
    simp [diff, runStack, sortByKey, insertByKey, mergeWalk, h1, TomlValue.isArray]

theorem c7_witness :
    diff 3 (.integer 0) (.table [])
      = ⟨.panicked "Expected a table at the top level", []⟩ :=
  c7_top_level_guard_and_todo_failure.1 3

/-- C8 counterexample: the spec claims a Changed record carries the old
value first and the new value second.  Diffing new document k = 1
against old document k = 2 emits Changed(some k, 1, 2): the new value 1
comes first, not the old value 2 as claimed. -/
theorem c8_counterexample :
    (diff 2 (.table [("k", TomlValue.integer 1)])
        (.table [("k", TomlValue.integer 2)])).changes
      = [.changed (some "k") (TomlValue.integer 1) (TomlValue.integer 2)] ∧
    TomlChange.changed (some "k") (TomlValue.integer 1) (TomlValue.integer 2)
      ≠ TomlChange.changed (some "k") (TomlValue.integer 2) (TomlValue.integer 1) := by
  constructor
  · rfl
  · simp

/-- C8 (amended): every Changed record emitted by diff carries the new
document value (from the first argument) as its first value component
and the old document value (from the second argument) as its second,
with a present key under which each component is an entry of its
respective document. -/
theorem c8_changed_carries_new_then_old :
    ∀ fuel ta tb c ko x y,
      c ∈ (diff fuel (.table ta) (.table tb)).changes →
      c = .changed ko x y →
      ∃ k, ko = some k ∧ (k, x) ∈ ta ∧ (k, y) ∈ tb := by
  intro fuel ta tb c ko x y hmem hc
  cases fuel with
  | zero =>
    rw [diff_zero] at hmem
    simp at hmem
  | succ fuel =>
    rw [diff_succ] at hmem
    have horig := mergeWalk_origin fuel (sortByKey ta) (sortByKey tb) c hmem
    subst hc
    simp only [OriginOk] at horig
    rcases horig with ⟨k, hk, h1, h2⟩
    exact ⟨k, hk, (sortByKey_perm ta).mem_iff.mp h1, (sortByKey_perm tb).mem_iff.mp h2⟩

theorem c8_amended_witness :
    ∃ k, (some "k" : Option String) = some k ∧
      (k, TomlValue.integer 1) ∈ [("k", TomlValue.integer 1)] ∧
      (k, TomlValue.integer 2) ∈ [("k", TomlValue.integer 2)] :=
  c8_changed_carries_new_then_old 2 [("k", TomlValue.integer 1)]
    [("k", TomlValue.integer 2)] _ (some "k") (TomlValue.integer 1)
    (TomlValue.integer 2) (List.mem_singleton.mpr rfl) rfl

/-- C9: within a single table-level comparison the code sorts both entry
lists by key and merge-walks them, so the Added and Deleted records it
emits carry keys in strictly ascending lexicographic order, whatever
order the entries of the two documents were listed in. -/
theorem c9_added_deleted_keys_ascending :
    ∀ fuel ta tb, (ta.map Prod.fst).Nodup → (tb.map Prod.fst).Nodup →
      (adKeys (diff fuel (.table ta) (.table tb)).changes).Pairwise KeyLt := by
  intro fuel ta tb ha hb
  cases fuel with
  | zero =>
    rw [diff_zero]
    simp [adKeys]
  | succ fuel =>
    rw [diff_succ]
    exact (mergeWalk_adKeys fuel _ _ (sortByKey_keys_lt ha) (sortByKey_keys_lt hb)).2

theorem c9_witness :
    ((([("b", TomlValue.integer 1), ("a", TomlValue.integer 2)] :
        List (String × TomlValue)).map Prod.fst).Nodup) ∧
    ((([("c", TomlValue.integer 3)] : List (String × TomlValue)).map Prod.fst).Nodup) ∧
    (adKeys (diff 9 (.table [("b", TomlValue.integer 1), ("a", TomlValue.integer 2)])
        (.table [("c", TomlValue.integer 3)])).changes).Pairwise KeyLt :=
  ⟨by decide, by decide,
    c9_added_deleted_keys_ascending 9 _ _ (by decide) (by decide)⟩

/-- C10: the change representation makes the key of Added and Deleted a
mandatory string, so every Added or Deleted record diff returns carries a
key, and that key together with the carried value is an entry of the new
document (for Added) or of the old document (for Deleted); a key-less
Added or Deleted, as the spec text prescribes for array leftovers, is
not representable. -/
theorem c10_added_deleted_key_mandatory :
    ∀ fuel ta tb c, c ∈ (diff fuel (.table ta) (.table tb)).changes →
      (∀ k v, c = .added k v → (k, v) ∈ ta) ∧
      (∀ k v, c = .deleted k v → (k, v) ∈ tb) := by
  intro fuel ta tb c hmem
  cases fuel with
  | zero =>
    rw [diff_zero] at hmem
    simp at hmem
  | succ fuel =>
    rw [diff_succ] at hmem
    have horig := mergeWalk_origin fuel (sortByKey ta) (sortByKey tb) c hmem
    constructor
    · intro k v hc
      subst hc
      simp only [OriginOk] at horig
      exact (sortByKey_perm ta).mem_iff.mp horig
    · intro k v hc
      subst hc
      simp only [OriginOk] at horig
      exact (sortByKey_perm tb).mem_iff.mp horig

theorem c10_witness :
    ("a", TomlValue.integer 1) ∈ [("a", TomlValue.integer 1)] :=
  (c10_added_deleted_key_mandatory 2 [("a", TomlValue.integer 1)]
    [("b", TomlValue.integer 2)] (.added "a" (TomlValue.integer 1))
    (List.mem_singleton.mpr rfl)).1 "a" (TomlValue.integer 1) rfl
